import Mathlib

/-!
Verification of the `clicache` on-disk command cache.

This file gives a shallow embedding of the cache engine in
`clicache/__init__.py` and of the canonicalizer in `clicache/cli.py`,
and proves or refutes the specified properties against it.

Modelling conventions:
* Python byte strings are modelled as Lean `String` values; the byte
  sequence of a string is its list of character codes (the strings the
  cache handles here are ASCII, where the two notions coincide).
* Python floating-point times are modelled as rationals (`ℚ`); every
  comparison the code performs on times is an exact order comparison,
  which ℚ models faithfully.
* Fallible Python code is modelled with `Except PyExc`; raising an
  exception is returning `.error`.
* Filesystem state for one cache key (one shard directory) is modelled
  explicitly and passed through the functions; the multi-writer rename
  protocol of `_cache` is additionally modelled as an interleaved
  transition system in the `Race` section below.
-/

deriving instance DecidableEq for Except

namespace Clicache

/-- Exceptions raised by the Python code: `CacheMiss` (clicache), plain
`Exception` with an internal-error message, `OSError`/`IOError` propagated
from filesystem calls, and `ValueError` (from `cli.argv2sh`). -/
inductive PyExc
  | cacheMiss (msg : String)
  | osError
  | internalError (msg : String)
  | valueError (msg : String)
deriving DecidableEq

/-- The single-quote character, `\x27`. -/
def squoteChar : Char := Char.ofNat 39

/-- Python `str.replace` specialised to a single-character pattern: every
occurrence of the character `c` in `s` is replaced by `repl`. -/
def pyReplaceChar (s : String) (c : Char) (repl : String) : String :=
  String.mk ((s.data.map (fun ch => if ch = c then repl.data else [ch])).flatten)

/-- Embedding of `cli.shquote` (cli.py line 28): wrap the text in single
quotes after replacing each embedded single quote by the four-character
sequence quote, backslash, quote, quote (Python raw string `r"'\''"`). -/
def shquote (text : String) : String :=
  "\x27" ++ pyReplaceChar text squoteChar "\x27\\\x27\x27" ++ "\x27"

/-- Character class of the regex `re_unquote = ^[a-zA-Z0-9_\-\.,/]+$`
(cli.py line 10); the Python 2 pattern is ASCII-only. -/
def reUnquoteChar (c : Char) : Bool :=
  (65 ≤ c.toNat ∧ c.toNat ≤ 90) || (97 ≤ c.toNat ∧ c.toNat ≤ 122) ||
  (48 ≤ c.toNat ∧ c.toNat ≤ 57) ||
  c = Char.ofNat 95 || c = Char.ofNat 45 || c = Char.ofNat 46 ||
  c = Char.ofNat 44 || c = Char.ofNat 47

/-- Embedding of `re_unquote.match(arg)` as a Boolean: the pattern
`^[class]+$` matches iff the string is one or more class characters,
where the Python `$` anchor also matches just before one trailing
newline. -/
def reUnquoteMatch (s : String) : Bool :=
  let body := if s.data.getLast? = some (Char.ofNat 10) then s.data.dropLast else s.data
  !body.isEmpty && body.all reUnquoteChar

/-- Python string slicing `s[1:]`: total; slicing past the end of a string
never raises `IndexError` (the empty string yields the empty string).
This is why the `except IndexError` branch of `argv2sh` is dead code. -/
def pySliceFrom1 (s : String) : Option String := some (String.mk (s.data.drop 1))

/-- Embedding of `cli.argv2sh` (cli.py lines 30 to 49): build
`" arg1 arg2 ..."` quoting each argument that does not match
`re_unquote`, then return the slice `sh[1:]`; the `ValueError` branch is
reachable only if the slice raises `IndexError`, which it never does. -/
def argv2sh (argv : List String) : Except PyExc String :=
  let sh := argv.foldl
    (fun sh arg => sh ++ " " ++ (if reUnquoteMatch arg then arg else shquote arg)) ""
  match pySliceFrom1 sh with
  | some r => .ok r
  | none => .error (.valueError "cannot create shell code from an empty list")

/-! SHA-1, used by `_hash` via `hashlib.sha1`.  The implementation below
is the standard SHA-1 compression function over `Nat` with explicit
reduction modulo `2 ^ 32`. -/

/-- Truncation to a 32-bit word. -/
def w32 (n : Nat) : Nat := n % 4294967296

/-- Left rotation of a 32-bit word by `s` bits. -/
def rotl32 (x s : Nat) : Nat := w32 (x <<< s) ||| (x >>> (32 - s))

/-- Byte sequence of a (Python 2) string: its character codes. -/
def toBytes (s : String) : List Nat := s.data.map Char.toNat

/-- SHA-1 message padding: append `0x80`, zero bytes up to 56 mod 64, and
the 64-bit big-endian bit length. -/
def padMsg (m : List Nat) : List Nat :=
  let L := m.length
  let bitLen := 8 * L
  let padZeros := (120 - (L + 1) % 64) % 64
  m ++ [128] ++ List.replicate padZeros 0 ++
    [ bitLen >>> 56 % 256, bitLen >>> 48 % 256, bitLen >>> 40 % 256, bitLen >>> 32 % 256,
      bitLen >>> 24 % 256, bitLen >>> 16 % 256, bitLen >>> 8 % 256, bitLen % 256 ]

/-- Big-endian grouping of bytes into 32-bit words. -/
def bytesToWords : List Nat → List Nat
  | b0 :: b1 :: b2 :: b3 :: rest =>
      (((b0 * 256 + b1) * 256 + b2) * 256 + b3) :: bytesToWords rest
  | _ => []

/-- Grouping of a word list into 16-word chunks. -/
def chunks16 : List Nat → List (List Nat)
  | w0 :: w1 :: w2 :: w3 :: w4 :: w5 :: w6 :: w7 ::
    w8 :: w9 :: w10 :: w11 :: w12 :: w13 :: w14 :: w15 :: rest =>
      [w0, w1, w2, w3, w4, w5, w6, w7, w8, w9, w10, w11, w12, w13, w14, w15] :: chunks16 rest
  | _ => []

/-- SHA-1 message-schedule extension from 16 to 80 words. -/
def extendWords (a : Array Nat) : Array Nat :=
  (List.range 64).foldl
    (fun a i =>
      a.push (rotl32 ((a.getD (i + 13) 0) ^^^ (a.getD (i + 8) 0) ^^^
        (a.getD (i + 2) 0) ^^^ (a.getD i 0)) 1))
    a

/-- SHA-1 round function. -/
def sha1F (t b c d : Nat) : Nat :=
  if t < 20 then (b &&& c) ||| ((b ^^^ 4294967295) &&& d)
  else if t < 40 then b ^^^ c ^^^ d
  else if t < 60 then (b &&& c) ||| (b &&& d) ||| (c &&& d)
  else b ^^^ c ^^^ d

/-- SHA-1 round constants. -/
def sha1K (t : Nat) : Nat :=
  if t < 20 then 1518500249
  else if t < 40 then 1859775393
  else if t < 60 then 2400959708
  else 3395469782

/-- One SHA-1 round on the five-word state. -/
def sha1Round (w : Array Nat) (st : Nat × Nat × Nat × Nat × Nat) (t : Nat) :
    Nat × Nat × Nat × Nat × Nat :=
  let (a, b, c, d, e) := st
  let tmp := w32 (rotl32 a 5 + sha1F t b c d + e + sha1K t + w.getD t 0)
  (tmp, a, rotl32 b 30, c, d)

/-- SHA-1 compression of one 16-word chunk into the running hash state. -/
def sha1Chunk (h : Nat × Nat × Nat × Nat × Nat) (chunk : List Nat) :
    Nat × Nat × Nat × Nat × Nat :=
  let w := extendWords chunk.toArray
  let (h0, h1, h2, h3, h4) := h
  let (a, b, c, d, e) := (List.range 80).foldl (sha1Round w) (h0, h1, h2, h3, h4)
  (w32 (h0 + a), w32 (h1 + b), w32 (h2 + c), w32 (h3 + d), w32 (h4 + e))

/-- Lower-case hexadecimal digit. -/
def hexDigit (n : Nat) : Char :=
  if n < 10 then Char.ofNat (48 + n) else Char.ofNat (87 + n)

/-- Eight-hex-digit rendering of a 32-bit word. -/
def toHex8 (n : Nat) : List Char :=
  (List.range 8).map (fun i => hexDigit (n >>> (28 - 4 * i) % 16))

/-- Embedding of `hashlib.sha1(s).hexdigest()`: the 40-character lower-case
hex SHA-1 digest of the string. -/
def sha1hex (s : String) : String :=
  let msg := padMsg (toBytes s)
  let cs := chunks16 (bytesToWords msg)
  let (h0, h1, h2, h3, h4) :=
    cs.foldl sha1Chunk (1732584193, 4023233417, 2562383102, 271733878, 3285377520)
  ⟨toHex8 h0 ++ toHex8 h1 ++ toHex8 h2 ++ toHex8 h3 ++ toHex8 h4⟩

/-- Command argument of `_hash`, `runsh` and `cli.runsh_t`: either a string
of shell code or a list of exec arguments (the Python code distinguishes
the two with `isinstance(sh, basestring)`). -/
inductive ShCmd
  | str (s : String)
  | argv (args : List String)
deriving DecidableEq

/-- Embedding of `_hash` (clicache lines 53 to 74): canonicalize an argv
list through `cli.argv2sh`, fold an optional stdin string into the text as
`echo <quoted input> | <command>`, and return the SHA-1 hex digest paired
with the hashed text. -/
def _hash (sh : ShCmd) (inputstr : Option String) : Except PyExc (String × String) :=
  match (match sh with
         | .argv args => argv2sh args
         | .str s => .ok s) with
  | .error e => .error e
  | .ok r0 =>
      let r := match inputstr with
               | some i => "echo " ++ shquote i ++ " | " ++ r0
               | none => r0
      .ok (sha1hex r, r)

/-! Exact rational arithmetic helpers.  `Rat.add`, `Rat.sub` and `Rat.div`
are irreducible in the ambient library, so the embedding uses the
kernel-computable `Rat.divInt` form below; `ratSub_eq` identifies it with
ordinary subtraction for use in general statements. -/

/-- Subtraction on ℚ in kernel-computable form. -/
def ratSub (a b : ℚ) : ℚ :=
  Rat.divInt (a.num * (b.den : Int) - b.num * (a.den : Int)) ((a.den : Int) * (b.den : Int))

/-- Test for a decimal digit character. -/
def isDigitChar (c : Char) : Bool := 48 ≤ c.toNat && c.toNat ≤ 57

/-- Numeric value of a list of decimal digit characters. -/
def digitsToNat (l : List Char) : Nat := l.foldl (fun a c => a * 10 + (c.toNat - 48)) 0

/-- Parse of an unsigned Python float literal of the fixed-point form the
cache writes (`digits`, `digits.`, `.digits` or `digits.digits`); any
other content fails.  This models Python `float()` on the strings the
cache produces and on arbitrary non-numeric strings; scientific notation,
infinities and surrounding whitespace are outside the on-disk format
(`%.6f`) and are not modelled. -/
def parseUnsignedPyFloat (l : List Char) : Option ℚ :=
  let intPart := l.takeWhile (fun c => c ≠ Char.ofNat 46)
  let rest := l.dropWhile (fun c => c ≠ Char.ofNat 46)
  match rest with
  | [] =>
      if !intPart.isEmpty && intPart.all isDigitChar then
        some (Rat.divInt (digitsToNat intPart : Int) 1)
      else none
  | _ :: frac =>
      if (!intPart.isEmpty || !frac.isEmpty) && intPart.all isDigitChar &&
          frac.all isDigitChar then
        some (Rat.divInt
          ((digitsToNat intPart : Int) * (10 : Int) ^ frac.length + (digitsToNat frac : Int))
          ((10 : Int) ^ frac.length))
      else none

/-- Parse of a Python float string, with optional leading sign; models
`float(s)` raising `ValueError` as `none`. -/
def parsePyFloat (s : String) : Option ℚ :=
  match s.data with
  | [] => none
  | c :: rest =>
      if c = Char.ofNat 45 then (parseUnsignedPyFloat rest).map Rat.neg
      else if c = Char.ofNat 43 then parseUnsignedPyFloat rest
      else parseUnsignedPyFloat (c :: rest)

/-- Parse of a Python int string (optional sign then decimal digits);
models `int(s)` raising `ValueError` as `none`.  This is exact on the
`%d`-formatted strings the cache writes. -/
def parsePyInt (s : String) : Option Int :=
  match s.data with
  | [] => none
  | c :: rest =>
      if c = Char.ofNat 45 then
        if !rest.isEmpty && rest.all isDigitChar then some (-(digitsToNat rest : Int)) else none
      else if c = Char.ofNat 43 then
        if !rest.isEmpty && rest.all isDigitChar then some (digitsToNat rest : Int) else none
      else
        if isDigitChar c && rest.all isDigitChar then some (digitsToNat (c :: rest) : Int)
        else none

/-- Round `a / b` to the nearest integer, ties to even (the rounding of
correctly-rounded decimal formatting). -/
def roundHalfEven (a b : Nat) : Nat :=
  let q := a / b
  let r := a % b
  if 2 * r < b then q
  else if b < 2 * r then q + 1
  else if q % 2 = 0 then q else q + 1

/-- Left-pad a string to six characters with zeros. -/
def padZeros6 (s : String) : String :=
  String.mk (List.replicate (6 - s.length) (Char.ofNat 48)) ++ s

/-- Embedding of Python `'%.6f' % x` for the rational time values of this
development: fixed-point decimal with exactly six fractional digits,
correctly rounded (ties to even). -/
def formatFixed6 (q : ℚ) : String :=
  let n : Nat := roundHalfEven (q.num.natAbs * 1000000) q.den
  let whole := n / 1000000
  let frac := n % 1000000
  (if q.num < 0 then "-" else "") ++ toString whole ++ "." ++ padZeros6 (toString frac)

/-! Configuration (settings.py) and platform constants. -/

/-- Default of the `CLICACHE_MAX_RETRIES` setting (settings.py line 16). -/
def CLICACHE_MAX_RETRIES : Nat := 10

/-- Value of Python 2 `sys.maxint` on an LP64 platform, used by `runsh` as
an effectively unbounded `maxage` for its post-write re-read. -/
def sysMaxint : Int := 9223372036854775807

/-! The on-disk data model for a single cache key (one shard directory). -/

/-- Contents of one cache Entry directory: the five field files, as the
byte strings stored on disk (clicache lines 111 to 115). -/
structure Entry where
  r : String
  t : String
  stdout : String
  stderr : String
  returncode : String
deriving DecidableEq

/-- State of one shard directory: the Entry the `current` symlink resolves
to, if the symlink exists.  `none` models `readlink` failing with
`ENOENT`. -/
structure KeyCache where
  current : Option Entry
deriving DecidableEq

/-- Concrete Entry used by witnesses: timestamp 100, exit code 0. -/
def entryEx : Entry :=
  { r := "echo foo", t := "100.000000", stdout := "foo\n", stderr := "", returncode := "0" }

/-- Open oracle on which every attempt succeeds. -/
def allOk : Nat → Bool := fun i => true

/-! The Cache Reader: `_cached_runsh` (clicache lines 145 to 226). -/

/-- Embedding of the open-files loop of `_cached_runsh` (clicache lines
172 to 192).  `openOk i` tells whether the five `open` calls of attempt
`i` all succeed (they fail together with `OSError`/`IOError` when the
Entry directory was deleted between resolving `current` and opening).
The loop body runs at most once: on a failed open the source executes
`raise`, which re-raises the caught exception, and the `continue` on the
following line is unreachable; the only way to reach the
`if not good` internal error is `CLICACHE_MAX_RETRIES < 1`, in which
case the `while` body never runs. -/
def openFiles (openOk : Nat → Bool) (maxRetries : Nat) : Except PyExc Unit :=
  if 0 < maxRetries then
    if openOk 0 then .ok ()
    else .error .osError
  else .error (.internalError "internal error: unable to get a handle on a cache result")

/-- Embedding of `_cached_runsh` (clicache lines 145 to 226) for the shard
directory of key `h`: resolve `current` (`ENOENT` is a `CacheMiss`), open
the five field files under the retry bound, parse the stored timestamp
(failure is a fatal internal error), raise `CacheMiss` when
`now - t > maxage`, then return the stored stdout and stderr with the
parsed returncode (parse failure again a fatal internal error).  `now`
is the value of `time.time()` at the age check on line 204. -/
def _cached_runsh (st : KeyCache) (h : String) (openOk : Nat → Bool) (maxRetries : Nat)
    (now maxage : ℚ) : Except PyExc (String × String × Int) :=
  match st.current with
  | none => .error (.cacheMiss ("cache miss: " ++ h ++ ": no entry in cache"))
  | some e =>
      match openFiles openOk maxRetries with
      | .error ex => .error ex
      | .ok () =>
          match parsePyFloat e.t with
          | none => .error (.internalError "internal error: unexpected timestamp value in cache")
          | some t =>
              if ratSub now t > maxage then
                .error (.cacheMiss ("cache miss: " ++ h ++ ": cache entry is too old"))
              else
                match parsePyInt e.returncode with
                | none =>
                    .error (.internalError "internal error: unexpected returncode value in cache")
                | some returncode => .ok (e.stdout, e.stderr, returncode)

/-! The Cache Writer: `_cache` (clicache lines 83 to 143). -/

/-- Embedding of `_cache` (clicache lines 83 to 143) on the shard
directory of key `h`: create the shard directory if needed, write the
five field files of a fresh uuid-named Entry, and atomically repoint
`current` at it via a temporary symlink and `os.rename`, removing the
previously current Entry best-effort.  In this single-shard state the
net effect is that `current` resolves to the new Entry.  `writeTime` is
the value of `time.time()` evaluated on line 111: the timestamp file is
written from it, and the `t` argument of the source function is unused
in the body.  The fine-grained interleaving of these steps under
concurrent writers is modelled separately in the `Race` section. -/
def _cache (st : KeyCache) (h r : String) (t : ℚ) (stdout stderr : String)
    (returncode : Int) (writeTime : ℚ) : KeyCache :=
  { current := some
      { r := r
        t := formatFixed6 writeTime
        stdout := stdout
        stderr := stderr
        returncode := toString returncode } }

/-! The Orchestrator: `runsh` (clicache lines 231 to 247). -/

/-- Embedding of `runsh` (clicache lines 231 to 247): derive the key,
attempt a cached read, and on `CacheMiss` (only) execute the command,
cache the result, and re-read with `maxage = sys.maxint`.  `exec` is the
`(stdout, stderr, returncode)` result of `cli.runsh_t(sh, inputstr)`;
`now1` is the reader time of the first read, `tExec` the `time.time()`
taken right after execution (line 239, passed to `_cache` as `t`),
`writeTime` the `time.time()` of the writer itself (line 111), and
`now2` the reader time of the final read.  The returned pair is the
result together with the final shard state. -/
def runsh (sh : ShCmd) (inputstr : Option String) (st : KeyCache)
    (exec : String × String × Int) (openOk1 openOk2 : Nat → Bool) (maxRetries : Nat)
    (now1 tExec writeTime now2 : ℚ) (maxage : ℚ) :
    Except PyExc ((String × String × Int) × KeyCache) :=
  match _hash sh inputstr with
  | .error e => .error e
  | .ok (h, r) =>
      match _cached_runsh st h openOk1 maxRetries now1 maxage with
      | .ok res => .ok (res, st)
      | .error (.cacheMiss _) =>
          let (stdout, stderr, returncode) := exec
          let st2 := _cache st h r tExec stdout stderr returncode writeTime
          match _cached_runsh st2 h openOk2 maxRetries now2 (Rat.divInt sysMaxint 1) with
          | .ok res => .ok (res, st2)
          | .error e => .error e
      | .error e => .error e

/-! Race model: the writer protocol of `_cache` under interleaved
concurrent writers for one key.

Each writer process executes the sequence of filesystem operations of
`_cache` (clicache lines 83 to 143) as atomic steps; a schedule is an
arbitrary interleaving of the writers' steps.  The shared state is the
shard directory: for every Entry identifier the number of its field
files written so far (`none` when the Entry directory does not exist),
and the target of the `current` symlink.  A writer with program counter
`pc` performs next:
* `pc = 0` — `os.mkdir(new_canonical)` (line 109);
* `pc = 1 .. 5` — write one of the five field files (lines 111 to 115);
* `pc = 6` — `os.symlink` to the writer-private temporary name
  (line 124; no shared-state effect, the name is private);
* `pc = 7` — `os.readlink` of `current`, recording the previously
  current Entry (lines 127 to 135);
* `pc = 8` — the atomic `os.rename` of the temporary symlink onto
  `current` (line 139);
* `pc = 9` — best-effort `shutil.rmtree` of the recorded old Entry
  (lines 142 to 143);
* `pc = 10` — done. -/

namespace Race

/-- State of one writer process: its fresh Entry identifier, program
counter, and the `old_canonical` value read at `pc = 7`. -/
structure Writer where
  id : String
  pc : Nat
  old : Option String
deriving DecidableEq

/-- Shared shard-directory state plus all writer processes. -/
structure Sys where
  dirs : String → Option Nat
  current : Option String
  writers : List Writer

/-- Pointwise update of the directory map. -/
def upd (f : String → Option Nat) (k : String) (v : Option Nat) : String → Option Nat :=
  fun x => if x = k then v else f x

/-- Effect of a writer step on the directory map. -/
def stepDirs (s : Sys) (w : Writer) : String → Option Nat :=
  if w.pc ≤ 5 then upd s.dirs w.id (some w.pc)
  else if w.pc = 9 then
    match w.old with
    | some x => upd s.dirs x none
    | none => s.dirs
  else s.dirs

/-- Effect of a writer step on the `current` symlink. -/
def stepCurrent (s : Sys) (w : Writer) : Option String :=
  if w.pc = 8 then some w.id else s.current

/-- Advance of the stepping writer itself. -/
def stepWriter (s : Sys) (w : Writer) : Writer :=
  if w.pc = 7 then { id := w.id, pc := 8, old := s.current }
  else { id := w.id, pc := w.pc + 1, old := w.old }

/-- Execute the next step of writer `i` (no effect if `i` is out of range
or that writer is done). -/
def doStep (s : Sys) (i : Nat) : Sys :=
  match s.writers[i]? with
  | none => s
  | some w =>
      if 10 ≤ w.pc then s
      else { dirs := stepDirs s w, current := stepCurrent s w,
             writers := s.writers.set i (stepWriter s w) }

/-- Execute a whole schedule. -/
def runSched (s : Sys) (sched : List Nat) : Sys := sched.foldl doStep s

/-- Initial state: empty shard directory, no `current` symlink, one fresh
writer per Entry identifier. -/
def initSys (ids : List String) : Sys :=
  { dirs := fun _ => none, current := none,
    writers := ids.map (fun id => { id := id, pc := 0, old := none }) }

/-- Inductive invariant of the protocol: writer identities are fixed;
`current` only ever holds the identifier of a writer that has renamed;
every recorded `old` value is such an identifier too; a writer that has
renamed never holds `current` in its `old` field; a writer that has
finished its field writes but not yet renamed has all five fields on
disk; the Entry `current` points to is fully written; and `current`
exists as soon as any writer has renamed. -/
def Inv (ids : List String) (s : Sys) : Prop :=
  (s.writers.map (fun w => w.id) = ids) ∧
  (∀ c, s.current = some c →
    ∃ j, ∃ hj : j < s.writers.length, (s.writers[j]).id = c ∧ 9 ≤ (s.writers[j]).pc) ∧
  (∀ j, (hj : j < s.writers.length) → ∀ x, (s.writers[j]).old = some x →
    ∃ k, ∃ hk : k < s.writers.length, (s.writers[k]).id = x ∧ 9 ≤ (s.writers[k]).pc) ∧
  (∀ j, (hj : j < s.writers.length) → 9 ≤ (s.writers[j]).pc →
    ∀ c, s.current = some c → (s.writers[j]).old ≠ some c) ∧
  (∀ j, (hj : j < s.writers.length) → 6 ≤ (s.writers[j]).pc → (s.writers[j]).pc ≤ 8 →
    s.dirs (s.writers[j]).id = some 5) ∧
  (∀ c, s.current = some c → s.dirs c = some 5) ∧
  (s.current = none → ∀ j, (hj : j < s.writers.length) → (s.writers[j]).pc ≤ 8)

end Race

/-! Theorems.  General lemmas first, then the claim theorems with their
witnesses and counterexamples. -/

theorem ratSub_eq (a b : ℚ) : ratSub a b = a - b := by
  unfold ratSub
  rw [Rat.divInt_eq_div]
  push_cast
  have ha : (a.den : ℚ) ≠ 0 := by positivity
  have hb : (b.den : ℚ) ≠ 0 := by positivity
  conv_rhs => rw [← Rat.num_div_den a, ← Rat.num_div_den b]
  rw [div_sub_div _ _ ha hb]
  congr 1
  ring

namespace Race

theorem upd_same (f : String → Option Nat) (k : String) (v : Option Nat) :
    upd f k v k = v := by
  simp [upd]

theorem upd_other (f : String → Option Nat) (k : String) (v : Option Nat)
    (x : String) (hx : x ≠ k) : upd f k v x = f x := by
  simp [upd, hx]

theorem stepWriter_id (s : Sys) (w : Writer) : (stepWriter s w).id = w.id := by
  unfold stepWriter; split <;> rfl

theorem stepWriter_pc_ge (s : Sys) (w : Writer) : w.pc ≤ (stepWriter s w).pc := by
  unfold stepWriter
  split
  · rename_i h; simp [h]
  · simp

theorem id_inj (ids : List String) (hnd : ids.Nodup) (s : Sys)
    (h1 : s.writers.map (fun x => x.id) = ids) {j k : Nat}
    (hj : j < s.writers.length) (hk : k < s.writers.length) (hjk : j ≠ k) :
    (s.writers[j]).id ≠ (s.writers[k]).id := by
  have hnd2 : (s.writers.map (fun x => x.id)).Nodup := h1 ▸ hnd
  rw [List.nodup_iff_injective_getElem] at hnd2
  intro he
  apply hjk
  have hj2 : j < (s.writers.map (fun x => x.id)).length := by simpa using hj
  have hk2 : k < (s.writers.map (fun x => x.id)).length := by simpa using hk
  have := @hnd2 ⟨j, hj2⟩ ⟨k, hk2⟩ (by simpa using he)
  simpa using this

theorem map_id_set (s : Sys) (i : Nat) (w : Writer)
    (hi : i < s.writers.length) (hwi : s.writers[i] = w)
    (w' : Writer) (hid : w'.id = w.id) :
    (s.writers.set i w').map (fun x => x.id) = s.writers.map (fun x => x.id) := by
  apply List.ext_getElem
  · simp
  · intro n h1 h2
    simp only [List.getElem_map]
    rcases eq_or_ne i n with rfl | hne
    · rw [List.getElem_set_self, hid, hwi]
    · rw [List.getElem_set_ne hne]

theorem exists_renamed_set (s : Sys) (i : Nat) (w : Writer)
    (hi : i < s.writers.length) (hwi : s.writers[i] = w)
    (w' : Writer) (hid : w'.id = w.id) (hpc : w.pc ≤ w'.pc) (x : String)
    (h : ∃ j, ∃ hj : j < s.writers.length,
      (s.writers[j]).id = x ∧ 9 ≤ (s.writers[j]).pc) :
    ∃ j, ∃ hj : j < (s.writers.set i w').length,
      ((s.writers.set i w')[j]).id = x ∧ 9 ≤ ((s.writers.set i w')[j]).pc := by
  obtain ⟨j, hj, hjid, hjpc⟩ := h
  refine ⟨j, by simpa using hj, ?_⟩
  rcases eq_or_ne i j with rfl | hne
  · rw [List.getElem_set_self]
    rw [hwi] at hjid hjpc
    exact ⟨hid.trans hjid, by omega⟩
  · rw [List.getElem_set_ne hne]
    exact ⟨hjid, hjpc⟩

theorem inv_doStep (ids : List String) (hnd : ids.Nodup) (s : Sys) (i : Nat)
    (h : Inv ids s) : Inv ids (doStep s i) := by
  obtain ⟨h1, h2, h3, h4, h5, h6, h7⟩ := h
  unfold doStep
  cases hw : s.writers[i]? with
  | none => exact ⟨h1, h2, h3, h4, h5, h6, h7⟩
  | some w =>
    rw [List.getElem?_eq_some] at hw
    obtain ⟨hi, hwi⟩ := hw
    show Inv ids (if 10 ≤ w.pc then s
      else { dirs := stepDirs s w, current := stepCurrent s w,
             writers := s.writers.set i (stepWriter s w) })
    by_cases hdone : 10 ≤ w.pc
    · rw [if_pos hdone]
      exact ⟨h1, h2, h3, h4, h5, h6, h7⟩
    rw [if_neg hdone]
    push_neg at hdone
    unfold Inv
    dsimp only
    have hcase : w.pc ≤ 5 ∨ w.pc = 6 ∨ w.pc = 7 ∨ w.pc = 8 ∨ w.pc = 9 := by omega
    have hidw : (stepWriter s w).id = w.id := stepWriter_id s w
    have hlen : ∀ j, j < (s.writers.set i (stepWriter s w)).length ↔
        j < s.writers.length := by simp
    rcases hcase with hc | hc | hc | hc | hc
    -- Case pc ≤ 5: mkdir or a field write
    · have hD : stepDirs s w = upd s.dirs w.id (some w.pc) := by
        unfold stepDirs; rw [if_pos hc]
      have hC : stepCurrent s w = s.current := by
        unfold stepCurrent; rw [if_neg (by omega)]
      have hW : stepWriter s w = { id := w.id, pc := w.pc + 1, old := w.old } := by
        unfold stepWriter; rw [if_neg (by omega)]
      refine ⟨(map_id_set s i w hi hwi _ hidw).trans h1, ?_, ?_, ?_, ?_, ?_, ?_⟩
      · intro c hcur
        rw [hC] at hcur
        exact exists_renamed_set s i w hi hwi _ hidw (stepWriter_pc_ge s w) c (h2 c hcur)
      · intro j hj x hold
        rw [hlen] at hj
        rcases eq_or_ne i j with rfl | hne
        · rw [List.getElem_set_self, hW] at hold
          exact exists_renamed_set s i w hi hwi _ hidw (stepWriter_pc_ge s w) x
            (h3 i hi x (hwi ▸ hold))
        · rw [List.getElem_set_ne hne] at hold
          exact exists_renamed_set s i w hi hwi _ hidw (stepWriter_pc_ge s w) x
            (h3 j hj x hold)
      · intro j hj hpc c hcur
        rw [hlen] at hj
        rw [hC] at hcur
        rcases eq_or_ne i j with rfl | hne
        · rw [List.getElem_set_self, hW] at hpc
          simp only [hW] at hpc
          omega
        · rw [List.getElem_set_ne hne] at hpc ⊢
          exact h4 j hj hpc c hcur
      · intro j hj hpc1 hpc2
        rw [hlen] at hj
        rw [hD]
        rcases eq_or_ne i j with rfl | hne
        · rw [List.getElem_set_self, hW] at hpc1 hpc2 ⊢
          simp only at hpc1 hpc2 ⊢
          have : w.pc = 5 := by omega
          rw [this, upd_same]
        · rw [List.getElem_set_ne hne] at hpc1 hpc2 ⊢
          have hne2 : (s.writers[j]).id ≠ w.id := by
            have := id_inj ids hnd s h1 hj hi (fun hh => hne hh.symm)
            rw [hwi] at this
            exact this
          rw [upd_other _ _ _ _ hne2]
          exact h5 j hj hpc1 hpc2
      · intro c hcur
        rw [hC] at hcur
        rw [hD]
        obtain ⟨k, hk, hkid, hkpc⟩ := h2 c hcur
        have hne2 : c ≠ w.id := by
          intro hcw
          have hki : k ≠ i := by
            intro hki
            subst hki
            rw [hwi] at hkpc
            omega
          have := id_inj ids hnd s h1 hk hi hki
          rw [hwi, hkid] at this
          exact this hcw
        rw [upd_other _ _ _ _ hne2]
        exact h6 c hcur
      · intro hcur j hj
        rw [hlen] at hj
        rw [hC] at hcur
        rcases eq_or_ne i j with rfl | hne
        · rw [List.getElem_set_self, hW]
          all_goals show w.pc + 1 ≤ 8
          all_goals omega
        · rw [List.getElem_set_ne hne]
          exact h7 hcur j hj
    -- Case pc = 6: private temporary symlink, no shared effect
    · have hD : stepDirs s w = s.dirs := by
        unfold stepDirs; rw [if_neg (by omega), if_neg (by omega)]
      have hC : stepCurrent s w = s.current := by
        unfold stepCurrent; rw [if_neg (by omega)]
      have hW : stepWriter s w = { id := w.id, pc := w.pc + 1, old := w.old } := by
        unfold stepWriter; rw [if_neg (by omega)]
      refine ⟨(map_id_set s i w hi hwi _ hidw).trans h1, ?_, ?_, ?_, ?_, ?_, ?_⟩
      · intro c hcur
        rw [hC] at hcur
        exact exists_renamed_set s i w hi hwi _ hidw (stepWriter_pc_ge s w) c (h2 c hcur)
      · intro j hj x hold
        rw [hlen] at hj
        rcases eq_or_ne i j with rfl | hne
        · rw [List.getElem_set_self, hW] at hold
          exact exists_renamed_set s i w hi hwi _ hidw (stepWriter_pc_ge s w) x
            (h3 i hi x (hwi ▸ hold))
        · rw [List.getElem_set_ne hne] at hold
          exact exists_renamed_set s i w hi hwi _ hidw (stepWriter_pc_ge s w) x
            (h3 j hj x hold)
      · intro j hj hpc c hcur
        rw [hlen] at hj
        rw [hC] at hcur
        rcases eq_or_ne i j with rfl | hne
        · rw [List.getElem_set_self, hW] at hpc
          simp only at hpc
          omega
        · rw [List.getElem_set_ne hne] at hpc ⊢
          exact h4 j hj hpc c hcur
      · intro j hj hpc1 hpc2
        rw [hlen] at hj
        rw [hD]
        rcases eq_or_ne i j with rfl | hne
        · rw [List.getElem_set_self, hW] at hpc1 hpc2 ⊢
          simp only at hpc1 hpc2 ⊢
          have := h5 i hi (by rw [hwi]; omega) (by rw [hwi]; omega)
          rw [hwi] at this
          exact this
        · rw [List.getElem_set_ne hne] at hpc1 hpc2 ⊢
          exact h5 j hj hpc1 hpc2
      · intro c hcur
        rw [hC] at hcur
        rw [hD]
        exact h6 c hcur
      · intro hcur j hj
        rw [hlen] at hj
        rw [hC] at hcur
        rcases eq_or_ne i j with rfl | hne
        · rw [List.getElem_set_self, hW]
          all_goals show w.pc + 1 ≤ 8
          all_goals omega
        · rw [List.getElem_set_ne hne]
          exact h7 hcur j hj
    -- Case pc = 7: read the old value of `current`
    · have hD : stepDirs s w = s.dirs := by
        unfold stepDirs; rw [if_neg (by omega), if_neg (by omega)]
      have hC : stepCurrent s w = s.current := by
        unfold stepCurrent; rw [if_neg (by omega)]
      have hW : stepWriter s w = { id := w.id, pc := 8, old := s.current } := by
        unfold stepWriter; rw [if_pos hc]
      refine ⟨(map_id_set s i w hi hwi _ hidw).trans h1, ?_, ?_, ?_, ?_, ?_, ?_⟩
      · intro c hcur
        rw [hC] at hcur
        exact exists_renamed_set s i w hi hwi _ hidw (stepWriter_pc_ge s w) c (h2 c hcur)
      · intro j hj x hold
        rw [hlen] at hj
        rcases eq_or_ne i j with rfl | hne
        · rw [List.getElem_set_self, hW] at hold
          simp only at hold
          exact exists_renamed_set s i w hi hwi _ hidw (stepWriter_pc_ge s w) x (h2 x hold)
        · rw [List.getElem_set_ne hne] at hold
          exact exists_renamed_set s i w hi hwi _ hidw (stepWriter_pc_ge s w) x
            (h3 j hj x hold)
      · intro j hj hpc c hcur
        rw [hlen] at hj
        rw [hC] at hcur
        rcases eq_or_ne i j with rfl | hne
        · rw [List.getElem_set_self, hW] at hpc
          simp only at hpc
          omega
        · rw [List.getElem_set_ne hne] at hpc ⊢
          exact h4 j hj hpc c hcur
      · intro j hj hpc1 hpc2
        rw [hlen] at hj
        rw [hD]
        rcases eq_or_ne i j with rfl | hne
        · rw [List.getElem_set_self, hW] at hpc1 hpc2 ⊢
          simp only at hpc1 hpc2 ⊢
          have := h5 i hi (by rw [hwi]; omega) (by rw [hwi]; omega)
          rw [hwi] at this
          exact this
        · rw [List.getElem_set_ne hne] at hpc1 hpc2 ⊢
          exact h5 j hj hpc1 hpc2
      · intro c hcur
        rw [hC] at hcur
        rw [hD]
        exact h6 c hcur
      · intro hcur j hj
        rw [hlen] at hj
        rw [hC] at hcur
        rcases eq_or_ne i j with rfl | hne
        · rw [List.getElem_set_self, hW]
          all_goals show w.pc + 1 ≤ 8
          all_goals omega
        · rw [List.getElem_set_ne hne]
          exact h7 hcur j hj
    -- Case pc = 8: atomic rename onto `current`
    · have hD : stepDirs s w = s.dirs := by
        unfold stepDirs; rw [if_neg (by omega), if_neg (by omega)]
      have hC : stepCurrent s w = some w.id := by
        unfold stepCurrent; rw [if_pos hc]
      have hW : stepWriter s w = { id := w.id, pc := 9, old := w.old } := by
        unfold stepWriter; rw [if_neg (by omega)]; rw [hc]
      have hnotid : ∀ x, (s.writers[i]).old = some x → x ≠ w.id := by
        intro x hold hxw
        obtain ⟨k, hk, hkid, hkpc⟩ := h3 i hi x hold
        have hki : k ≠ i := by
          intro hki
          subst hki
          rw [hwi] at hkpc
          omega
        have := id_inj ids hnd s h1 hk hi hki
        rw [hwi, hkid] at this
        exact this hxw
      refine ⟨(map_id_set s i w hi hwi _ hidw).trans h1, ?_, ?_, ?_, ?_, ?_, ?_⟩
      · intro c hcur
        rw [hC] at hcur
        injection hcur with hcur
        refine ⟨i, by simpa using hi, ?_⟩
        rw [List.getElem_set_self, hW]
        exact ⟨hcur ▸ rfl, Nat.le_refl 9⟩
      · intro j hj x hold
        rw [hlen] at hj
        rcases eq_or_ne i j with rfl | hne
        · rw [List.getElem_set_self, hW] at hold
          exact exists_renamed_set s i w hi hwi _ hidw (stepWriter_pc_ge s w) x
            (h3 i hi x (hwi ▸ hold))
        · rw [List.getElem_set_ne hne] at hold
          exact exists_renamed_set s i w hi hwi _ hidw (stepWriter_pc_ge s w) x
            (h3 j hj x hold)
      · intro j hj hpc c hcur
        rw [hlen] at hj
        rw [hC] at hcur
        injection hcur with hcur
        rcases eq_or_ne i j with rfl | hne
        · rw [List.getElem_set_self, hW]
          intro hold
          exact hnotid c (by rw [hwi]; exact hold) hcur.symm
        · rw [List.getElem_set_ne hne] at hpc ⊢
          intro hold
          obtain ⟨k, hk, hkid, hkpc⟩ := h3 j hj c hold
          have hki : k ≠ i := by
            intro hki
            subst hki
            rw [hwi] at hkpc
            omega
          have hii := id_inj ids hnd s h1 hk hi hki
          exact hii ((hkid.trans hcur.symm).trans (by rw [hwi]))
      · intro j hj hpc1 hpc2
        rw [hlen] at hj
        rw [hD]
        rcases eq_or_ne i j with rfl | hne
        · rw [List.getElem_set_self, hW] at hpc1 hpc2
          simp only at hpc1 hpc2
          omega
        · rw [List.getElem_set_ne hne] at hpc1 hpc2 ⊢
          exact h5 j hj hpc1 hpc2
      · intro c hcur
        rw [hC] at hcur
        injection hcur with hcur
        subst hcur
        rw [hD]
        have := h5 i hi (by rw [hwi]; omega) (by rw [hwi]; omega)
        rw [hwi] at this
        exact this
      · intro hcur
        rw [hC] at hcur
        exact absurd hcur (by simp)
    -- Case pc = 9: best-effort removal of the old Entry
    · have hC : stepCurrent s w = s.current := by
        unfold stepCurrent; rw [if_neg (by omega)]
      have hW : stepWriter s w = { id := w.id, pc := 10, old := w.old } := by
        unfold stepWriter; rw [if_neg (by omega)]; rw [hc]
      have hD : stepDirs s w = (match w.old with
          | some x => upd s.dirs x none
          | none => s.dirs) := by
        unfold stepDirs; rw [if_neg (by omega), if_pos hc]
      refine ⟨(map_id_set s i w hi hwi _ hidw).trans h1, ?_, ?_, ?_, ?_, ?_, ?_⟩
      · intro c hcur
        rw [hC] at hcur
        exact exists_renamed_set s i w hi hwi _ hidw (stepWriter_pc_ge s w) c (h2 c hcur)
      · intro j hj x hold
        rw [hlen] at hj
        rcases eq_or_ne i j with rfl | hne
        · rw [List.getElem_set_self, hW] at hold
          exact exists_renamed_set s i w hi hwi _ hidw (stepWriter_pc_ge s w) x
            (h3 i hi x (hwi ▸ hold))
        · rw [List.getElem_set_ne hne] at hold
          exact exists_renamed_set s i w hi hwi _ hidw (stepWriter_pc_ge s w) x
            (h3 j hj x hold)
      · intro j hj hpc c hcur
        rw [hlen] at hj
        rw [hC] at hcur
        rcases eq_or_ne i j with rfl | hne
        · rw [List.getElem_set_self, hW]
          simp only
          have := h4 i hi (by rw [hwi]; omega) c hcur
          rw [hwi] at this
          exact this
        · rw [List.getElem_set_ne hne] at hpc ⊢
          exact h4 j hj hpc c hcur
      · intro j hj hpc1 hpc2
        rw [hlen] at hj
        rw [hD]
        rcases eq_or_ne i j with rfl | hne
        · rw [List.getElem_set_self, hW] at hpc1 hpc2
          simp only at hpc1 hpc2
          omega
        · rw [List.getElem_set_ne hne] at hpc1 hpc2 ⊢
          cases hold : w.old with
          | none => exact h5 j hj hpc1 hpc2
          | some x =>
              obtain ⟨k, hk, hkid, hkpc⟩ := h3 i hi x (hwi ▸ hold)
              have hkj : k ≠ j := by
                intro hkj
                subst hkj
                omega
              have hne2 : (s.writers[j]).id ≠ x := by
                have := id_inj ids hnd s h1 hj hk (fun hh => hkj hh.symm)
                rw [hkid] at this
                exact this
              show upd s.dirs x none ((s.writers[j]).id) = some 5
              rw [upd_other _ _ _ _ hne2]
              exact h5 j hj hpc1 hpc2
      · intro c hcur
        rw [hC] at hcur
        rw [hD]
        cases hold : w.old with
        | none => exact h6 c hcur
        | some x =>
            have := h4 i hi (by rw [hwi]; omega) c hcur
            rw [hwi, hold] at this
            have hne2 : c ≠ x := by
              intro hcx
              exact this (by rw [hcx])
            show upd s.dirs x none c = some 5
            rw [upd_other _ _ _ _ hne2]
            exact h6 c hcur
      · intro hcur
        rw [hC] at hcur
        have := h7 hcur i hi
        rw [hwi] at this
        omega

theorem inv_runSched (ids : List String) (hnd : ids.Nodup) (s : Sys)
    (h : Inv ids s) (sched : List Nat) : Inv ids (runSched s sched) := by
  induction sched generalizing s with
  | nil => exact h
  | cons a t ih => exact ih (doStep s a) (inv_doStep ids hnd s a h)

theorem inv_init (ids : List String) : Inv ids (initSys ids) := by
  refine ⟨?_, ?_, ?_, ?_, ?_, ?_, ?_⟩
  · show (ids.map fun id => Writer.mk id 0 none).map (fun w => w.id) = ids
    rw [List.map_map]
    exact List.map_id ids
  · intro c hcur
    exact absurd hcur (by simp [initSys])
  · intro j hj x hold
    simp [initSys] at hold
  · intro j hj hpc c hcur
    exact absurd hcur (by simp [initSys])
  · intro j hj hpc1 hpc2
    simp [initSys] at hpc1
  · intro c hcur
    exact absurd hcur (by simp [initSys])
  · intro hcur j hj
    simp [initSys]

end Race

/-- Reduction of the reader on a state with an existing entry and a
successful first open: the remaining behaviour is parse, age check,
parse, return. -/
theorem cached_runsh_reduce (e : Entry) (h : String) (openOk : Nat → Bool)
    (maxRetries : Nat) (now maxage : ℚ)
    (hmr : 1 ≤ maxRetries) (hopen : openOk 0 = true) :
    _cached_runsh { current := some e } h openOk maxRetries now maxage =
      match parsePyFloat e.t with
      | none => .error (.internalError "internal error: unexpected timestamp value in cache")
      | some t =>
          if now - t > maxage then
            .error (.cacheMiss ("cache miss: " ++ h ++ ": cache entry is too old"))
          else
            match parsePyInt e.returncode with
            | none =>
                .error (.internalError "internal error: unexpected returncode value in cache")
            | some returncode => .ok (e.stdout, e.stderr, returncode) := by
  have hof : openFiles openOk maxRetries = .ok () := by
    unfold openFiles
    rw [if_pos (show 0 < maxRetries by omega), hopen]
    rfl
  unfold _cached_runsh
  rw [hof]
  simp only [ratSub_eq]

/-- Reduction of `runsh` when the first cached read hits: the stored
result is returned unchanged and nothing else happens. -/
theorem runsh_hit_eq (sh : ShCmd) (inputstr : Option String) (st : KeyCache)
    (exec : String × String × Int) (openOk1 openOk2 : Nat → Bool) (maxRetries : Nat)
    (now1 tExec writeTime now2 maxage : ℚ) (h r : String)
    (res : String × String × Int)
    (hh : _hash sh inputstr = .ok (h, r))
    (hres : _cached_runsh st h openOk1 maxRetries now1 maxage = .ok res) :
    runsh sh inputstr st exec openOk1 openOk2 maxRetries now1 tExec writeTime now2 maxage =
      .ok (res, st) := by
  unfold runsh
  rw [hh]
  dsimp only
  rw [hres]

/-- Reduction of `runsh` when the first cached read raises `CacheMiss`:
the command is executed, the result written, and the value of the second
read with `maxage = sys.maxint` returned, together with the written
state. -/
theorem runsh_miss_eq (sh : ShCmd) (inputstr : Option String) (st : KeyCache)
    (exec : String × String × Int) (openOk1 openOk2 : Nat → Bool) (maxRetries : Nat)
    (now1 tExec writeTime now2 maxage : ℚ) (h r : String) (m : String)
    (hh : _hash sh inputstr = .ok (h, r))
    (hmiss : _cached_runsh st h openOk1 maxRetries now1 maxage = .error (.cacheMiss m)) :
    runsh sh inputstr st exec openOk1 openOk2 maxRetries now1 tExec writeTime now2 maxage =
      (match _cached_runsh (_cache st h r tExec exec.1 exec.2.1 exec.2.2 writeTime) h
          openOk2 maxRetries now2 (Rat.divInt sysMaxint 1) with
       | .ok res => .ok (res, _cache st h r tExec exec.1 exec.2.1 exec.2.2 writeTime)
       | .error e2 => .error e2) := by
  unfold runsh
  rw [hh]
  dsimp only
  rw [hmiss]

/-! Claim theorems. -/

/-- C6: the Canonicalizer is claimed to fail with `ValueError` on an empty
argument vector; on the code, `argv2sh []` instead returns the empty
string, because the Python slice `sh[1:]` of the empty string is the
empty string and never raises `IndexError`, so the `except IndexError`
branch that would raise `ValueError` is dead code. -/
theorem argv2sh_empty_returns_empty_string : argv2sh [] = .ok "" := rfl

/-- C8 counterexample: on the text `don't`, `shquote` produces
`'don'\''t'` — the embedded quote is replaced by the four-character
close-escape-reopen sequence — and not the quote-doubled `'don''t'`
that the claim describes. -/
theorem shquote_does_not_double_quotes :
    shquote "don\x27t" = "\x27don\x27\\\x27\x27t\x27" ∧
    shquote "don\x27t" ≠ "\x27don\x27\x27t\x27" := by
  constructor
  · decide
  · decide

/-- Every character of a list mapped to its singleton flattens back to the
list, provided the replaced character does not occur. -/
theorem flatten_map_singleton (q : Char) (r : List Char) :
    ∀ l : List Char, (∀ c ∈ l, c ≠ q) →
      (l.map (fun ch => if ch = q then r else [ch])).flatten = l := by
  intro l h
  induction l with
  | nil => rfl
  | cons a t ih =>
      rw [List.map_cons, List.flatten_cons, if_neg (h a (List.mem_cons_self a t))]
      rw [ih (fun c hc => h c (List.mem_cons_of_mem a hc))]
      rfl

/-- C8 (amended): `shquote` returns the text as a single shell-safe
single-quoted string, handling an embedded single-quote character by
replacing it with the sequence quote, backslash, quote, quote (closing
the quoted region, emitting an escaped quote, and reopening it).  On
text without single quotes this is plain wrapping in quotes, and on the
repository test suite's funky string it produces exactly the quoting the
test expects. -/
theorem shquote_quoting :
    (∀ text : String, (∀ c ∈ text.data, c ≠ squoteChar) →
      shquote text = "\x27" ++ text ++ "\x27") ∧
    shquote "foo\x27bar \"more\" \\\x27 \\\" \\n zzz" =
      "\x27foo\x27\\\x27\x27bar \"more\" \\\x27\\\x27\x27 \\\" \\n zzz\x27" := by
  constructor
  · intro text h
    unfold shquote pyReplaceChar
    rw [flatten_map_singleton _ _ _ h]
  · decide

/-- C8 witness: on quote-free text `abc`, `shquote` wraps in single
quotes. -/
theorem shquote_quoting_witness : shquote "abc" = "\x27abc\x27" :=
  shquote_quoting.1 "abc" (by decide)

set_option maxRecDepth 10000 in
/-- C9: key derivation with stdin input folds the input into the hashed
text as a shell-safe echo piped into the command: for command vector
`cat` with input `foo bar` the canonical text is exactly
`echo 'foo bar' | cat`, and the returned key is the SHA-1 hex digest of
that string — the digest below, which matches the repository's own test
vector. -/
theorem hash_cat_input_canonical :
    _hash (.argv ["cat"]) (some "foo bar") =
      .ok ("86cc5f6b73420f8a99d3cda3235284f125637840", "echo \x27foo bar\x27 | cat") ∧
    sha1hex "echo \x27foo bar\x27 | cat" = "86cc5f6b73420f8a99d3cda3235284f125637840" := by
  constructor
  · decide
  · decide

/-- C1: the Cache Writer is claimed to persist its `timestamp` argument
(the completion time of the original execution); the code instead
persists the value `time.time()` takes during the write itself (line
111) and never uses the `t` argument.  A write with completion timestamp
100 performed at wall-clock time 200 stores the string `200.000000`,
which parses back to 200, not 100. -/
theorem cache_ignores_timestamp_argument :
    (_cache { current := none } "h" "r" 100 "out" "err" 0 200).current =
      some { r := "r", t := "200.000000", stdout := "out", stderr := "err",
             returncode := "0" } ∧
    parsePyFloat "200.000000" = some 200 ∧ (200 : ℚ) ≠ 100 := by
  refine ⟨by decide, by decide, by decide⟩

/-- C2: the Cache Reader is claimed to retry failed opens up to the
configured retry bound and raise a fatal internal error only after
exceeding it; on the code, the first failed open propagates the raw
`OSError` immediately (the `continue` after `raise` is unreachable), for
every retry bound of at least one and regardless of how later attempts
would have fared — the retries-exhausted internal error is never
reached, and the outcome is also never a `CacheMiss`. -/
theorem cached_runsh_open_failure_propagates (e : Entry) (h : String)
    (openOk : Nat → Bool) (maxRetries : Nat) (now maxage : ℚ)
    (hmr : 1 ≤ maxRetries) (hfail : openOk 0 = false) :
    _cached_runsh { current := some e } h openOk maxRetries now maxage =
      .error .osError := by
  have h0 : 0 < maxRetries := hmr
  unfold _cached_runsh openFiles
  rw [if_pos h0, hfail]
  rfl

/-- C2 witness: with the default retry bound of 10 and an oracle whose
first attempt fails but all later attempts would succeed, the reader
still propagates `OSError` at once. -/
theorem cached_runsh_open_failure_propagates_witness :
    _cached_runsh { current := some entryEx } "h" (fun i => !(i == 0))
      CLICACHE_MAX_RETRIES 100 10 = .error .osError :=
  cached_runsh_open_failure_propagates entryEx "h" (fun i => !(i == 0))
    CLICACHE_MAX_RETRIES 100 10 (by decide) (by decide)

/-- C4: for a key with an existing current Entry (with parseable stored
fields and a successful open), the read signals `CacheMiss` for
staleness if and only if `now - t` strictly exceeds `maxage`; whenever
`now - t ≤ maxage` — in particular at exact equality — the read is a hit
returning the stored fields. -/
theorem cached_runsh_stale_iff (e : Entry) (h : String) (openOk : Nat → Bool)
    (maxRetries : Nat) (now maxage tv : ℚ) (rc : Int)
    (hmr : 1 ≤ maxRetries) (hopen : openOk 0 = true)
    (ht : parsePyFloat e.t = some tv) (hrc : parsePyInt e.returncode = some rc) :
    ((∃ m, _cached_runsh { current := some e } h openOk maxRetries now maxage =
        .error (.cacheMiss m)) ↔ now - tv > maxage) ∧
    (now - tv ≤ maxage →
      _cached_runsh { current := some e } h openOk maxRetries now maxage =
        .ok (e.stdout, e.stderr, rc)) := by
  rw [cached_runsh_reduce e h openOk maxRetries now maxage hmr hopen, ht]
  dsimp only
  rw [hrc]
  constructor
  · by_cases hgt : now - tv > maxage
    · rw [if_pos hgt]
      exact ⟨fun _ => hgt, fun _ => ⟨_, rfl⟩⟩
    · rw [if_neg hgt]
      constructor
      · rintro ⟨m, hm⟩
        simp at hm
      · intro hgt2
        exact absurd hgt2 hgt
  · intro hle
    rw [if_neg (not_lt.mpr hle)]

/-- C4 witness: an entry with timestamp 100 read at time 100 with
maxage 0 — elapsed equals maxage exactly — is a hit with the stored
fields. -/
theorem cached_runsh_stale_iff_witness :
    _cached_runsh { current := some entryEx } "h" allOk 10 100 0 =
      .ok ("foo\n", "", 0) :=
  (cached_runsh_stale_iff entryEx "h" allOk 10 100 0 100 0
    (by decide) (by decide) (by decide) (by decide)).2
    (le_of_eq (sub_self (100 : ℚ)))

/-- C7: an unparseable stored timestamp makes the read fail with the
fatal internal error before any age check, and an unparseable stored
exit code makes a fresh read fail with the fatal internal error; in
neither case is `CacheMiss` signalled for the parse failure. -/
theorem cached_runsh_corrupt_is_fatal (e : Entry) (h : String) (openOk : Nat → Bool)
    (maxRetries : Nat) (now maxage : ℚ)
    (hmr : 1 ≤ maxRetries) (hopen : openOk 0 = true) :
    (parsePyFloat e.t = none →
      _cached_runsh { current := some e } h openOk maxRetries now maxage =
        .error (.internalError "internal error: unexpected timestamp value in cache")) ∧
    (∀ tv, parsePyFloat e.t = some tv → now - tv ≤ maxage →
      parsePyInt e.returncode = none →
      _cached_runsh { current := some e } h openOk maxRetries now maxage =
        .error (.internalError "internal error: unexpected returncode value in cache")) := by
  rw [cached_runsh_reduce e h openOk maxRetries now maxage hmr hopen]
  constructor
  · intro ht
    rw [ht]
  · intro tv ht hle hrc
    rw [ht]
    dsimp only
    rw [if_neg (not_lt.mpr hle), hrc]

/-- C7 witness: a stored timestamp `garbage` is a fatal internal error,
and a fresh entry with stored exit code `nope` is a fatal internal
error; neither is a `CacheMiss`. -/
theorem cached_runsh_corrupt_is_fatal_witness :
    _cached_runsh { current := some ⟨"r", "garbage", "o", "e", "0"⟩ } "h"
      allOk 10 100 0 =
      .error (.internalError "internal error: unexpected timestamp value in cache") ∧
    _cached_runsh { current := some ⟨"r", "100.000000", "o", "e", "nope"⟩ } "h"
      allOk 10 100 0 =
      .error (.internalError "internal error: unexpected returncode value in cache") :=
  ⟨(cached_runsh_corrupt_is_fatal _ "h" allOk 10 100 0 (by decide) (by decide)).1
      (by decide),
   (cached_runsh_corrupt_is_fatal _ "h" allOk 10 100 0 (by decide) (by decide)).2
      100 (by decide) (le_of_eq (sub_self (100 : ℚ))) (by decide)⟩

/-- C5: if the first cached read hits, `runsh` returns that stored
result with the state unchanged, for every executor (the executor is
not invoked); if the first read misses, `runsh` returns the value of a
second cached read, performed with `maxage = sys.maxint` (effectively
unbounded), on the state produced by executing the command and writing
its result to the cache. -/
theorem runsh_hit_and_miss_paths (sh : ShCmd) (inputstr : Option String)
    (st : KeyCache) (openOk1 openOk2 : Nat → Bool) (maxRetries : Nat)
    (now1 tExec writeTime now2 maxage : ℚ) (h r : String)
    (hh : _hash sh inputstr = .ok (h, r)) :
    (∀ res, _cached_runsh st h openOk1 maxRetries now1 maxage = .ok res →
      ∀ exec, runsh sh inputstr st exec openOk1 openOk2 maxRetries
          now1 tExec writeTime now2 maxage = .ok (res, st)) ∧
    (∀ m exec, _cached_runsh st h openOk1 maxRetries now1 maxage =
        .error (.cacheMiss m) →
      runsh sh inputstr st exec openOk1 openOk2 maxRetries
          now1 tExec writeTime now2 maxage =
        (match _cached_runsh (_cache st h r tExec exec.1 exec.2.1 exec.2.2 writeTime) h
            openOk2 maxRetries now2 (Rat.divInt sysMaxint 1) with
         | .ok res => .ok (res, _cache st h r tExec exec.1 exec.2.1 exec.2.2 writeTime)
         | .error e2 => .error e2)) := by
  constructor
  · intro res hres exec
    exact runsh_hit_eq sh inputstr st exec openOk1 openOk2 maxRetries
      now1 tExec writeTime now2 maxage h r res hh hres
  · intro m exec hmiss
    exact runsh_miss_eq sh inputstr st exec openOk1 openOk2 maxRetries
      now1 tExec writeTime now2 maxage h r m hh hmiss

set_option maxRecDepth 10000 in
/-- C5 witness: with the key of command `foo` and a fresh hit (entry of
timestamp 100 read at time 100 with maxage 0), `runsh` returns the
stored result and leaves the state unchanged, for an executor whose
output differs from the stored result. -/
theorem runsh_hit_and_miss_paths_witness :
    runsh (.str "foo") none { current := some entryEx } ("x", "y", 7) allOk allOk 10
      100 100 100 100 0 = .ok (("foo\n", "", 0), { current := some entryEx }) :=
  (runsh_hit_and_miss_paths (.str "foo") none { current := some entryEx } allOk allOk 10
      100 100 100 100 0 "0beec7b5ea3f0fdbc95d0dd47f3c5bc275da8a33" "foo"
      (by decide)).1 ("foo\n", "", 0) (by decide) ("x", "y", 7)

/-- C10 counterexample: the claim that a caller must pass a positive
maxage to ever be served from cache is false: with `maxage = 0`, which
is not positive, an entry whose elapsed age is exactly zero is served
from cache. -/
theorem maxage_zero_can_serve :
    _cached_runsh { current := some entryEx } "h" allOk 10 100 0 =
      .ok ("foo\n", "", 0) ∧ ¬((0 : ℚ) > 0) := by
  constructor
  · decide
  · decide

/-- C10 (amended): with the default `maxage = -1`, every existing entry
whose elapsed age is non-negative is judged too old, so the read signals
`CacheMiss` and `runsh` without an explicit maxage re-executes the
command (its result is the post-write re-read of the executed result);
and a caller is served from cache only when the maxage passed is at
least the entry's elapsed age — hence non-negative here — though not
necessarily positive. -/
theorem default_maxage_never_serves (e : Entry) (sh : ShCmd)
    (inputstr : Option String) (exec : String × String × Int)
    (openOk openOk2 : Nat → Bool) (maxRetries : Nat)
    (now tExec writeTime now2 tv : ℚ) (h r : String)
    (hmr : 1 ≤ maxRetries) (hopen : openOk 0 = true)
    (ht : parsePyFloat e.t = some tv) (hage : 0 ≤ now - tv)
    (hh : _hash sh inputstr = .ok (h, r)) :
    (∃ m, _cached_runsh { current := some e } h openOk maxRetries now (-1) =
        .error (.cacheMiss m)) ∧
    (runsh sh inputstr { current := some e } exec openOk openOk2 maxRetries
        now tExec writeTime now2 (-1) =
      (match _cached_runsh (_cache { current := some e } h r tExec
            exec.1 exec.2.1 exec.2.2 writeTime) h openOk2 maxRetries now2
            (Rat.divInt sysMaxint 1) with
       | .ok res => .ok (res, _cache { current := some e } h r tExec
            exec.1 exec.2.1 exec.2.2 writeTime)
       | .error e2 => .error e2)) ∧
    (∀ maxage : ℚ, ∀ res,
      _cached_runsh { current := some e } h openOk maxRetries now maxage = .ok res →
      now - tv ≤ maxage) := by
  have hgt : now - tv > (-1 : ℚ) := lt_of_lt_of_le (by norm_num) hage
  have hmiss : _cached_runsh { current := some e } h openOk maxRetries now (-1) =
      .error (.cacheMiss ("cache miss: " ++ h ++ ": cache entry is too old")) := by
    rw [cached_runsh_reduce e h openOk maxRetries now (-1) hmr hopen, ht]
    dsimp only
    rw [if_pos hgt]
  refine ⟨⟨_, hmiss⟩, ?_, ?_⟩
  · exact runsh_miss_eq sh inputstr { current := some e } exec openOk openOk2 maxRetries
      now tExec writeTime now2 (-1) h r _ hh hmiss
  · intro maxage res hok
    rw [cached_runsh_reduce e h openOk maxRetries now maxage hmr hopen, ht] at hok
    dsimp only at hok
    by_contra hgt2
    push_neg at hgt2
    rw [if_pos hgt2] at hok
    simp at hok

set_option maxRecDepth 10000 in
/-- C10 witness: an entry of timestamp 100 read at time 100 (elapsed age
zero) with the default maxage of -1 signals `CacheMiss`. -/
theorem default_maxage_never_serves_witness :
    ∃ m, _cached_runsh { current := some entryEx }
      "0beec7b5ea3f0fdbc95d0dd47f3c5bc275da8a33" allOk 10 100 (-1) =
      .error (.cacheMiss m) :=
  (default_maxage_never_serves entryEx (.str "foo") none ("o", "e", 0) allOk allOk 10
      100 100 100 100 100 "0beec7b5ea3f0fdbc95d0dd47f3c5bc275da8a33" "foo"
      (by decide) (by decide) (by decide) (le_of_eq (sub_self (100 : ℚ)).symm)
      (by decide)).1

/-- C3: in the interleaved model of the writer protocol, for any number
of concurrent writers with distinct fresh Entry identifiers and any
interleaving of their steps, whenever the `current` symlink exists it
points at the Entry of one of the writers and that Entry is present with
all five fields written — never a partially written or non-existent
Entry; and after a complete schedule (every writer finished, at least
one writer) `current` does exist, so exactly one fully-written Entry is
current. -/
theorem race_current_always_fully_written (ids : List String) (hnd : ids.Nodup) :
    (∀ sched c, (Race.runSched (Race.initSys ids) sched).current = some c →
      c ∈ ids ∧ (Race.runSched (Race.initSys ids) sched).dirs c = some 5) ∧
    (∀ sched, ids ≠ [] →
      (∀ w ∈ (Race.runSched (Race.initSys ids) sched).writers, 10 ≤ w.pc) →
      ∃ c, (Race.runSched (Race.initSys ids) sched).current = some c) := by
  have hinv : ∀ sched, Race.Inv ids (Race.runSched (Race.initSys ids) sched) :=
    fun sched => Race.inv_runSched ids hnd (Race.initSys ids) (Race.inv_init ids) sched
  constructor
  · intro sched c hcur
    obtain ⟨h1, h2, h3, h4, h5, h6, h7⟩ := hinv sched
    refine ⟨?_, h6 c hcur⟩
    obtain ⟨j, hj, hid, hpc⟩ := h2 c hcur
    rw [← h1, ← hid]
    exact List.mem_map_of_mem _ (List.getElem_mem hj)
  · intro sched hne hdone
    obtain ⟨h1, h2, h3, h4, h5, h6, h7⟩ := hinv sched
    cases hcur : (Race.runSched (Race.initSys ids) sched).current with
    | some c => exact ⟨c, rfl⟩
    | none =>
        exfalso
        have hlen := congrArg List.length h1
        rw [List.length_map] at hlen
        have hpos : 0 < ids.length := List.length_pos.mpr hne
        have h0 : 0 < (Race.runSched (Race.initSys ids) sched).writers.length := by
          omega
        have hd := hdone _ (List.getElem_mem h0)
        have := h7 hcur 0 h0
        omega

/-- C3 witness: writers `a` and `b` run to completion in an alternating
schedule; the final `current` exists, names one of the two written
Entries, and that Entry is fully written on disk. -/
theorem race_current_always_fully_written_witness :
    ∃ c, (Race.runSched (Race.initSys ["a", "b"])
        [0, 1, 0, 1, 0, 1, 0, 1, 0, 1, 0, 1, 0, 1, 0, 1, 0, 1, 0, 1]).current = some c ∧
      c ∈ ["a", "b"] ∧
      (Race.runSched (Race.initSys ["a", "b"])
        [0, 1, 0, 1, 0, 1, 0, 1, 0, 1, 0, 1, 0, 1, 0, 1, 0, 1, 0, 1]).dirs c = some 5 := by
  obtain ⟨c, hc⟩ := (race_current_always_fully_written ["a", "b"] (by decide)).2
    [0, 1, 0, 1, 0, 1, 0, 1, 0, 1, 0, 1, 0, 1, 0, 1, 0, 1, 0, 1] (by decide) (by decide)
  obtain ⟨hmem, hdirs⟩ := (race_current_always_fully_written ["a", "b"] (by decide)).1
    [0, 1, 0, 1, 0, 1, 0, 1, 0, 1, 0, 1, 0, 1, 0, 1, 0, 1, 0, 1] c hc
  exact ⟨c, hc, hmem, hdirs⟩

end Clicache
